import Mathlib

/-!
Verification development for the NLL region inference engine
(`src/librustc_mir/borrow_check/nll/region_infer/mod.rs`).

The engine is embedded shallowly:

* `RegionVid` and CFG points are dense natural-number indices; a CFG point
  `Location { block, statement }` is represented by its dense point index
  (the spec, section 4.1, states that `index(location)` is a bijection onto
  the interval from 0 to the number of points).
* The submodules `values.rs` and `dfs.rs` of this directory are not part of
  the sources; their behaviour (`RegionValueElements`, `RegionValues`,
  the guided DFS used by `CopyFromSourceToTarget` and
  `TestTargetOutlivesSource`) is modelled from the spec, sections 4.1, 4.2,
  4.5 and 4.6, as noted on each definition.
* `UniversalRegions` is an external collaborator (spec section 3 and 6); it
  is modelled as a record of oracle functions.
* Rust panics (`assert!`, `bug!`) are modelled with `Except String`.
* The `while changed` loops are modelled by iterating the loop body a
  sufficient number of times; the number is justified by the cardinality
  fixpoint lemma `iterate_fix_of_card` below, so the result is the same
  fixpoint the source loop reaches.
-/

namespace RegionInfer

/-- Dense index of a region variable (`RegionVid`). -/
abbrev RegionVid := Nat

/-- Source span, abstracted to a number (only its identity and order are used). -/
abbrev Span := Nat

/-- Definition record for one region variable (`RegionDefinition` in the source). -/
structure RegionDefinition where
  origin : Nat
  is_universal : Bool
  external_name : Option Nat
deriving DecidableEq

/-- An outlives constraint `sup: sub @ point`, with the span it arose from
(`Constraint` in the source; field order as in the source). The CFG point is
its dense index. -/
structure Constraint where
  sup : RegionVid
  sub : RegionVid
  point : Nat
  span : Span
deriving DecidableEq

/-- The `RegionTest` algebra from the source. -/
inductive RegionTest where
  | IsOutlivedByAnyRegionIn : List RegionVid → RegionTest
  | IsOutlivedByAllRegionsIn : List RegionVid → RegionTest
  | Any : List RegionTest → RegionTest
  | All : List RegionTest → RegionTest

/-- A deferred type test (`TypeTest` in the source). The host type system is
external; `generic_kind` is modelled by the list of region variables occurring
in the generic type, which is all the promotion logic of the source inspects. -/
structure TypeTest where
  generic_kind : List RegionVid
  lower_bound : RegionVid
  point : Nat
  span : Span
  test : RegionTest

/-- Modelled from the spec, section 4.1 (`values.rs` is not in the sources):
the element table packs CFG points into indices `0 ..< numPoints` and the
universal endpoint `end(R)` into index `numPoints + R`; it also carries the
CFG successor relation on point indices. -/
structure RegionValueElements where
  numPoints : Nat
  numUniversal : Nat
  succ : Nat → List Nat

/-- Modelled from the spec, section 4.1: `index_of_universal(R) = #points + R`. -/
def RegionValueElements.indexOfUniversal (E : RegionValueElements) (R : RegionVid) : Nat :=
  E.numPoints + R

/-- Modelled from the spec, section 4.2 (`values.rs` is not in the sources):
the map from region variables to sets of element indices, represented as the
set of (variable, element) pairs whose bit is set. -/
abbrev RegionValues := Finset (RegionVid × Nat)

/-- Modelled from the spec, section 4.2: `add(vid, element)` is idempotent and
returns true iff the bit flipped. -/
def RegionValues.add (v : RegionValues) (r : RegionVid) (e : Nat) : RegionValues × Bool :=
  (insert (r, e) v, decide ((r, e) ∉ v))

/-- Modelled from the spec, section 4.2: membership test. -/
def RegionValues.contains (v : RegionValues) (r : RegionVid) (e : Nat) : Bool :=
  decide ((r, e) ∈ v)

/-- Modelled from the spec, section 4.2: enumerate the universal indices whose
`end` bit is set in the value of `r` (iteration order is increasing index,
matching the dense-bitset iteration of the source). -/
def RegionValues.universal_regions_outlived_by (E : RegionValueElements) (v : RegionValues)
    (r : RegionVid) : List RegionVid :=
  (List.range E.numUniversal).filter fun R => RegionValues.contains v r (E.indexOfUniversal R)

/-- The external `UniversalRegions` catalogue (spec sections 3 and 6),
modelled as oracle functions. -/
structure UniversalRegions where
  len : Nat
  fr_fn_body : RegionVid
  outlives : RegionVid → RegionVid → Bool
  postdom_upper_bound : RegionVid → RegionVid → RegionVid
  non_local_upper_bound : RegionVid → RegionVid
  non_local_lower_bound : RegionVid → Option RegionVid
  is_local_free_region : RegionVid → Bool
  is_universal_region : RegionVid → Bool
  num_global_and_external_regions : Nat
  named_universal_regions : List (Nat × RegionVid)

/-- `ClosureOutlivesSubject`: either a region index or a generic type, the
latter modelled by the list of its (rewritten) region indices. -/
inductive ClosureOutlivesSubject where
  | Region : RegionVid → ClosureOutlivesSubject
  | Ty : List RegionVid → ClosureOutlivesSubject
deriving DecidableEq

/-- One propagated requirement (`ClosureOutlivesRequirement` in the source). -/
structure ClosureOutlivesRequirement where
  subject : ClosureOutlivesSubject
  outlived_free_region : RegionVid
  blame_span : Span
deriving DecidableEq

/-- The output artifact of `solve` for a closure body. -/
structure ClosureRegionRequirements where
  num_external_vids : Nat
  outlives_requirements : List ClosureOutlivesRequirement
deriving DecidableEq

/-- A diagnostic reported through the inference context session. The source
renders strings; the model records the span and the offending data. -/
inductive Diagnostic where
  | typeTestError (span : Span) (lower_bound : RegionVid)
  | universalError (span : Span) (fr : RegionVid) (outlived_fr : RegionVid)
deriving DecidableEq

/-- The `RegionInferenceContext` state. -/
structure RegionInferenceContext where
  definitions : List RegionDefinition
  elements : RegionValueElements
  liveness_constraints : RegionValues
  inferred_values : Option RegionValues
  constraints : List Constraint
  type_tests : List TypeTest
  universal_regions : UniversalRegions

/-- One step of the universal-region initialization loop in
`init_universal_regions`: mark `is_universal` and add the whole CFG and
`end(v)` to the liveness value of `v`. The per-point `add` loop of the source
is expressed as a union with the set of all point indices. -/
def initStep (E : RegionValueElements) (st : List RegionDefinition × RegionValues)
    (v : RegionVid) : List RegionDefinition × RegionValues :=
  ((match st.1.get? v with
    | some d => st.1.set v { d with is_universal := true }
    | none => st.1),
   st.2 ∪ (Finset.range E.numPoints).image (fun p => (v, p)) ∪ {(v, E.indexOfUniversal v)})

/-- `init_universal_regions` from the source: copy external names, then seed
every universal region with the entire CFG and its own endpoint. The
assertion that each universal variable has a free-region origin is a sanity
check on externally supplied origins and is elided. -/
def init_universal_regions (ctx : RegionInferenceContext) : RegionInferenceContext :=
  let defs := ctx.universal_regions.named_universal_regions.foldl
    (fun ds nv =>
      match ds.get? nv.2 with
      | some d => ds.set nv.2 { d with external_name := some nv.1 }
      | none => ds) ctx.definitions
  let fin := (List.range ctx.universal_regions.len).foldl (initStep ctx.elements)
    (defs, ctx.liveness_constraints)
  { ctx with definitions := fin.1, liveness_constraints := fin.2 }

/-- `RegionInferenceContext::new`: the element table is built from the MIR
point data and `universal_regions.len()`, each origin yields a fresh
definition, and universal regions are initialized. -/
def new (var_origins : List Nat) (universal_regions : UniversalRegions)
    (numPoints : Nat) (succ : Nat → List Nat) : RegionInferenceContext :=
  init_universal_regions
    { definitions := var_origins.map fun o =>
        { origin := o, is_universal := false, external_name := none }
      elements := { numPoints := numPoints, numUniversal := universal_regions.len, succ := succ }
      liveness_constraints := ∅
      inferred_values := none
      constraints := []
      type_tests := []
      universal_regions := universal_regions }

/-- `add_live_point`: panics (modelled as `Except.error`) if values were
already inferred; otherwise adds the point index and reports whether the bit
flipped. -/
def add_live_point (ctx : RegionInferenceContext) (v : RegionVid) (point : Nat) :
    Except String (RegionInferenceContext × Bool) :=
  match ctx.inferred_values with
  | some _ => Except.error "values already inferred"
  | none =>
    let added := RegionValues.add ctx.liveness_constraints v point
    Except.ok ({ ctx with liveness_constraints := added.1 }, added.2)

/-- `add_outlives`: panics (modelled as `Except.error`) if values were already
inferred; otherwise records the constraint. -/
def add_outlives (ctx : RegionInferenceContext) (span : Span) (sup sub : RegionVid)
    (point : Nat) : Except String RegionInferenceContext :=
  match ctx.inferred_values with
  | some _ => Except.error "values already inferred"
  | none =>
    Except.ok { ctx with constraints :=
      ctx.constraints ++ [{ sup := sup, sub := sub, point := point, span := span }] }

/-- `add_type_test`: the source performs no phase assertion here; the test is
appended unconditionally. -/
def add_type_test (ctx : RegionInferenceContext) (tt : TypeTest) : RegionInferenceContext :=
  { ctx with type_tests := ctx.type_tests ++ [tt] }

/-- Modelled from the spec, section 4.5: the CFG points of the value of `r`,
the only points through which the guided DFS may walk. -/
def subPoints (E : RegionValueElements) (vals : RegionValues) (r : RegionVid) : Finset Nat :=
  (Finset.range E.numPoints).filter fun q => (r, q) ∈ vals

/-- Modelled from the spec, section 4.5: one expansion step of the guided DFS
frontier; a successor propagates iff it lies in the value of the source
region. -/
def reachStep (E : RegionValueElements) (sub cur : Finset Nat) : Finset Nat :=
  cur ∪ cur.biUnion fun q => ((E.succ q).filter fun s => decide (s ∈ sub)).toFinset

/-- Modelled from the spec, section 4.5: the points the guided DFS visits,
starting from the constraint point (which itself propagates only if it is in
the source value). The DFS visits each CFG point at most once, so iterating
the expansion step `numPoints` times reaches every visited point. -/
def reachablePoints (E : RegionValueElements) (vals : RegionValues) (r : RegionVid)
    (start : Nat) : Finset Nat :=
  (reachStep E (subPoints E vals r))^[E.numPoints]
    (if start ∈ subPoints E vals r then {start} else ∅)

/-- Modelled from the spec, section 4.5: the `end` bits currently set in the
value of `r`, as element indices. -/
def endIndices (E : RegionValueElements) (vals : RegionValues) (r : RegionVid) : Finset Nat :=
  ((Finset.range E.numUniversal).filter fun R => (r, E.numPoints + R) ∈ vals).image
    fun R => E.numPoints + R

/-- Modelled from the spec, sections 4.5 and 4.6: the set of element indices
of the source region `r` that the guided DFS from `start` reaches — its
reachable points, together with all universal endpoint bits of `r`, which
"stick" to every visited point (so they propagate as soon as any point does).
This single set underlies both `CopyFromSourceToTarget` and
`TestTargetOutlivesSource`. -/
def dfsCopySet (E : RegionValueElements) (vals : RegionValues) (r : RegionVid)
    (start : Nat) : Finset Nat :=
  reachablePoints E vals r start ∪
    (if (reachablePoints E vals r start).Nonempty then endIndices E vals r else ∅)

/-- The `CopyFromSourceToTarget` operation of one constraint: union the
reachable portion of `sub` into `sup`. -/
def applyConstraint (E : RegionValueElements) (v : RegionValues) (c : Constraint) :
    RegionValues :=
  v ∪ (dfsCopySet E v c.sub c.point).image fun e => (c.sup, e)

/-- One round of the `while changed` loop of `propagate_constraints`: process
every constraint once, in order. -/
def propagateOnce (ctx : RegionInferenceContext) (v : RegionValues) : RegionValues :=
  ctx.constraints.foldl (applyConstraint ctx.elements) v

/-- The finite universe inside which propagation moves: propagation only ever
copies elements already present in some value, to variables that appear as a
`sup`, so every intermediate state is contained in this product. -/
def propUniverse (ctx : RegionInferenceContext) : Finset (Nat × Nat) :=
  (ctx.liveness_constraints.image Prod.fst ∪ (ctx.constraints.map Constraint.sup).toFinset) ×ˢ
    ctx.liveness_constraints.image Prod.snd

/-- `propagate_constraints`: start from a clone of the liveness constraints
and run rounds until nothing changes. Each changing round strictly enlarges a
subset of `propUniverse ctx`, so `(propUniverse ctx).card` rounds reach the
fixpoint of the source loop (`propagate_constraints_fixed` below). -/
def propagate_constraints (ctx : RegionInferenceContext) : RegionValues :=
  (propagateOnce ctx)^[(propUniverse ctx).card] ctx.liveness_constraints

/-- `eval_outlives` (`TestTargetOutlivesSource`), modelled from the spec,
section 4.6: a read-only probe that succeeds iff every element of `sub`
reachable from `point` is already present in `sup`. -/
def evalOutlives (E : RegionValueElements) (vals : RegionValues)
    (sup_region sub_region : RegionVid) (point : Nat) : Bool :=
  decide (∀ e ∈ dfsCopySet E vals sub_region point, (sup_region, e) ∈ vals)

/-- `eval_region_test` from the source: evaluate the test algebra against the
inferred values. -/
def evalRegionTest (E : RegionValueElements) (vals : RegionValues) (point : Nat)
    (lower_bound : RegionVid) : RegionTest → Bool
  | RegionTest.IsOutlivedByAllRegionsIn regions =>
    regions.all fun r => evalOutlives E vals r lower_bound point
  | RegionTest.IsOutlivedByAnyRegionIn regions =>
    regions.any fun r => evalOutlives E vals r lower_bound point
  | RegionTest.Any tests =>
    tests.attach.any fun t => evalRegionTest E vals point lower_bound t.1
  | RegionTest.All tests =>
    tests.attach.all fun t => evalRegionTest E vals point lower_bound t.1
termination_by t => sizeOf t
decreasing_by
  all_goals simp_wf
  all_goals have h := List.sizeOf_lt_of_mem t.2
  all_goals omega

/-- `non_local_universal_upper_bound`, inner computation on given values:
fold `postdom_upper_bound` over the universal regions outlived by `r`,
starting from the function-body region, then take the non-local upper bound. -/
def non_local_universal_upper_bound_v (ctx : RegionInferenceContext) (vals : RegionValues)
    (r : RegionVid) : RegionVid :=
  ctx.universal_regions.non_local_upper_bound
    ((RegionValues.universal_regions_outlived_by ctx.elements vals r).foldl
      ctx.universal_regions.postdom_upper_bound ctx.universal_regions.fr_fn_body)

/-- `non_local_universal_upper_bound` from the source; the source unwraps
`inferred_values`, so the model returns `none` exactly when the source would
panic. -/
def non_local_universal_upper_bound (ctx : RegionInferenceContext) (r : RegionVid) :
    Option RegionVid :=
  ctx.inferred_values.map fun vals => non_local_universal_upper_bound_v ctx vals r

/-- `try_promote_type_test_subject`: fold over the regions of the generic
type; a region whose non-local universal upper bound is contained in its own
value is rewritten to that bound (`ReClosureBound`), otherwise it is left as
is and the later `lift` fails. The model records for each region whether it
was rewritten; lift succeeds iff all were. -/
def try_promote_type_test_subject (ctx : RegionInferenceContext) (vals : RegionValues)
    (ty : List RegionVid) : Option ClosureOutlivesSubject :=
  let folded := ty.map fun r =>
    let upper_bound := non_local_universal_upper_bound_v ctx vals r
    if RegionValues.contains vals r (ctx.elements.indexOfUniversal upper_bound) then
      (true, upper_bound)
    else (false, r)
  if folded.all fun x => x.1 then some (ClosureOutlivesSubject.Ty (folded.map fun x => x.2))
  else none

/-- `try_promote_type_test`: promote the subject; on success the requirement
uses the non-local universal upper bound of the lower-bound region. The two
sanity assertions on the bound (universal, non-local) check oracle answers
and are elided. -/
def try_promote_type_test (ctx : RegionInferenceContext) (vals : RegionValues)
    (tt : TypeTest) : Option ClosureOutlivesRequirement :=
  (try_promote_type_test_subject ctx vals tt.generic_kind).map fun subject =>
    { subject := subject
      outlived_free_region := non_local_universal_upper_bound_v ctx vals tt.lower_bound
      blame_span := tt.span }

/-- One iteration of the `check_type_tests` loop: a passing test contributes
nothing; a failing one is promoted when a propagation sink is present, and
reported as a diagnostic otherwise (or when promotion fails). -/
def checkTypeTestsStep (ctx : RegionInferenceContext) (vals : RegionValues) (sink : Bool)
    (acc : List ClosureOutlivesRequirement × List Diagnostic) (tt : TypeTest) :
    List ClosureOutlivesRequirement × List Diagnostic :=
  if evalRegionTest ctx.elements vals tt.point tt.lower_bound tt.test then acc
  else if sink then
    match try_promote_type_test ctx vals tt with
    | some req => (acc.1 ++ [req], acc.2)
    | none => (acc.1, acc.2 ++ [Diagnostic.typeTestError tt.span tt.lower_bound])
  else (acc.1, acc.2 ++ [Diagnostic.typeTestError tt.span tt.lower_bound])

/-- `check_type_tests` from the source. -/
def check_type_tests (ctx : RegionInferenceContext) (vals : RegionValues) (sink : Bool) :
    List ClosureOutlivesRequirement × List Diagnostic :=
  ctx.type_tests.foldl (checkTypeTestsStep ctx vals sink) ([], [])

/-- One round of the `while changed` relaxation in `dependencies`: for each
constraint, when the `sup` has a distance, relax the `sub` to that distance
plus one if smaller. -/
def relaxOnce (constraints : List Constraint) (d0 : List (Option Nat)) : List (Option Nat) :=
  constraints.foldl (fun d c =>
    match d.getD c.sup none with
    | none => d
    | some n =>
      match d.getD c.sub none with
      | none => d.set c.sub (some (n + 1))
      | some dist => if n + 1 < dist then d.set c.sub (some (n + 1)) else d) d0

/-- `dependencies` from the source: shortest edge-distances from `r0` over the
constraint multigraph (edges `sup` to `sub`). The source relaxes until
stable; distances are lengths of shortest paths, so the number of variables
bounds the rounds needed. -/
def dependencies (ctx : RegionInferenceContext) (r0 : RegionVid) : List (Option Nat) :=
  (relaxOnce ctx.constraints)^[ctx.definitions.length + 1]
    ((List.replicate ctx.definitions.length none).set r0 (some 0))

/-- Lexicographic order on (distance, span) pairs, the derived tuple ordering
over which the source takes `min()`. -/
def pairLe (a b : Nat × Nat) : Bool :=
  decide (a.1 < b.1) || (decide (a.1 = b.1) && decide (a.2 ≤ b.2))

/-- Minimum of a list under a boolean order, returning the earliest of equal
minima, as `Iterator::min` does. -/
def minByLe {α : Type} (le : α → α → Bool) : List α → Option α
  | [] => none
  | x :: xs =>
    match minByLe le xs with
    | none => some x
    | some y => if le x y then some x else some y

/-- The candidate (distance, span) pairs considered by `blame_span`: one for
each constraint with `sub = fr2` whose `sup` has a distance from `fr1`. -/
def blameCandidates (ctx : RegionInferenceContext) (fr1 fr2 : RegionVid) :
    List (Nat × Nat) :=
  ctx.constraints.filterMap fun c =>
    if c.sub ≠ fr2 then none
    else ((dependencies ctx fr1).getD c.sup none).map fun distance => (distance, c.span)

/-- `blame_span` from the source: among constraints with `sub = fr2` whose
`sup` has a distance from `fr1`, take the minimum (distance, span) pair and
return its span; `none` models the `bug!` panic of the source. -/
def blame_span (ctx : RegionInferenceContext) (fr1 fr2 : RegionVid) : Option Span :=
  (minByLe pairLe (blameCandidates ctx fr1 fr2)).map fun x => x.2

/-- The natural (derived lexicographic) ordering on constraints:
(sup, sub, point, span). -/
def constraintNaturalLe (c1 c2 : Constraint) : Bool :=
  decide (c1.sup < c2.sup) ||
    (decide (c1.sup = c2.sup) &&
      (decide (c1.sub < c2.sub) ||
        (decide (c1.sub = c2.sub) &&
          (decide (c1.point < c2.point) ||
            (decide (c1.point = c2.point) && decide (c1.span ≤ c2.span))))))

/-- Modelled from the claim wording, for refinement comparison only: the
blame selection with ties among equal distances broken by the constraint
natural ordering (rather than by span as the source does). -/
def blameSpanClaimTieBreak (ctx : RegionInferenceContext) (fr1 fr2 : RegionVid) :
    Option Span :=
  let influenced_fr1 := dependencies ctx fr1
  let relevant := ctx.constraints.filterMap fun c =>
    if c.sub ≠ fr2 then none
    else (influenced_fr1.getD c.sup none).map fun distance => (distance, c)
  (minByLe (fun a b =>
      decide (a.1 < b.1) || (decide (a.1 = b.1) && constraintNaturalLe a.2 b.2)) relevant).map
    fun x => x.2.span

/-- The `for shorter_fr in universal_regions_outlived_by(longer_fr)` loop body
of `check_universal_region`: a declaratively outlived region is skipped; for a
violation the blame span is computed (the `bug!` of `blame_span` is an
`Except.error`); with a sink and a non-local lower bound, one requirement is
pushed and the function returns early; otherwise the violation is reported
and the loop continues. -/
def check_universal_region_loop (ctx : RegionInferenceContext) (vals : RegionValues)
    (longer_fr : RegionVid) (sink : Bool) :
    List RegionVid → List ClosureOutlivesRequirement × List Diagnostic →
      Except String (List ClosureOutlivesRequirement × List Diagnostic)
  | [], acc => Except.ok acc
  | shorter_fr :: rest, acc =>
    if ctx.universal_regions.outlives longer_fr shorter_fr then
      check_universal_region_loop ctx vals longer_fr sink rest acc
    else
      match blame_span ctx longer_fr shorter_fr with
      | none => Except.error "could not find any constraint to blame"
      | some bs =>
        if sink then
          match ctx.universal_regions.non_local_lower_bound longer_fr with
          | some fr_minus =>
            Except.ok
              (acc.1 ++ [{ subject := ClosureOutlivesSubject.Region fr_minus
                           outlived_free_region :=
                             ctx.universal_regions.non_local_upper_bound shorter_fr
                           blame_span := bs }],
               acc.2)
          | none =>
            check_universal_region_loop ctx vals longer_fr sink rest
              (acc.1, acc.2 ++ [Diagnostic.universalError bs longer_fr shorter_fr])
        else
          check_universal_region_loop ctx vals longer_fr sink rest
            (acc.1, acc.2 ++ [Diagnostic.universalError bs longer_fr shorter_fr])

/-- `check_universal_region` from the source. -/
def check_universal_region (ctx : RegionInferenceContext) (vals : RegionValues)
    (longer_fr : RegionVid) (sink : Bool)
    (acc : List ClosureOutlivesRequirement × List Diagnostic) :
    Except String (List ClosureOutlivesRequirement × List Diagnostic) :=
  check_universal_region_loop ctx vals longer_fr sink
    (RegionValues.universal_regions_outlived_by ctx.elements vals longer_fr) acc

/-- The outer loop of `check_universal_regions` over the universal prefix. -/
def check_universal_regions_loop (ctx : RegionInferenceContext) (vals : RegionValues)
    (sink : Bool) :
    List RegionVid → List ClosureOutlivesRequirement × List Diagnostic →
      Except String (List ClosureOutlivesRequirement × List Diagnostic)
  | [], acc => Except.ok acc
  | fr :: rest, acc =>
    match check_universal_region ctx vals fr sink acc with
    | Except.error e => Except.error e
    | Except.ok acc2 => check_universal_regions_loop ctx vals sink rest acc2

/-- `check_universal_regions` from the source: the universal regions are the
`take_while is_universal` prefix of the definitions. -/
def check_universal_regions (ctx : RegionInferenceContext) (vals : RegionValues)
    (sink : Bool) (acc : List ClosureOutlivesRequirement × List Diagnostic) :
    Except String (List ClosureOutlivesRequirement × List Diagnostic) :=
  check_universal_regions_loop ctx vals sink
    ((ctx.definitions.enum.takeWhile fun x => x.2.is_universal).map fun x => x.1) acc

/-- The two checking passes of `solve` on the already-computed inferred
values `vals`: the type tests run first, then the universal-region check,
both accumulating into the same requirement and diagnostic lists, with the
sink present iff the body is a closure. -/
def solveChecks (ctx : RegionInferenceContext) (is_closure : Bool) (vals : RegionValues) :
    Except String (List ClosureOutlivesRequirement × List Diagnostic) :=
  check_universal_regions { ctx with inferred_values := some vals } vals is_closure
    (check_type_tests { ctx with inferred_values := some vals } vals is_closure)

/-- The body of `solve` after propagation, on the already-computed inferred
values `vals`: run the checks and wrap a nonempty requirement list (only)
into `Some`. -/
def solveInner (ctx : RegionInferenceContext) (is_closure : Bool) (vals : RegionValues) :
    Except String (Option ClosureRegionRequirements × List Diagnostic × RegionInferenceContext) :=
  match solveChecks ctx is_closure vals with
  | Except.error e => Except.error e
  | Except.ok (reqs, diags) =>
    Except.ok
      (if reqs.isEmpty then none
       else some { num_external_vids := ctx.universal_regions.num_global_and_external_regions
                   outlives_requirements := reqs },
       diags, { ctx with inferred_values := some vals })

/-- `solve` from the source: assert the unsolved phase, propagate, store the
inferred values, then check type tests and universal regions. The model also
returns the diagnostics emitted through the session and the updated
context. -/
def solve (ctx : RegionInferenceContext) (is_closure : Bool) :
    Except String (Option ClosureRegionRequirements × List Diagnostic × RegionInferenceContext) :=
  match ctx.inferred_values with
  | some _ => Except.error "values already inferred"
  | none => solveInner ctx is_closure (propagate_constraints ctx)

/-- `region_contains_point` from the source: panics (modelled as `none`)
before `solve`. -/
def region_contains_point (ctx : RegionInferenceContext) (r : RegionVid) (p : Nat) :
    Option Bool :=
  ctx.inferred_values.map fun vals => RegionValues.contains vals r p

/-- True iff an `Except` value is an error (a modelled panic). -/
def exceptIsError {ε α : Type} (e : Except ε α) : Bool :=
  match e with
  | Except.error _ => true
  | Except.ok _ => false

/-- Requirement component of a solve result (for stating concrete runs). -/
def okReqs
    (e : Except String (Option ClosureRegionRequirements × List Diagnostic × RegionInferenceContext)) :
    Option ClosureRegionRequirements :=
  match e with
  | Except.ok x => x.1
  | Except.error _ => none

/-- Diagnostics component of a solve result (for stating concrete runs). -/
def okDiags
    (e : Except String (Option ClosureRegionRequirements × List Diagnostic × RegionInferenceContext)) :
    List Diagnostic :=
  match e with
  | Except.ok x => x.2.1
  | Except.error _ => []

/-- Context component of a solve result (for stating concrete runs). -/
def okCtx
    (e : Except String (Option ClosureRegionRequirements × List Diagnostic × RegionInferenceContext))
    (d : RegionInferenceContext) : RegionInferenceContext :=
  match e with
  | Except.ok x => x.2.2
  | Except.error _ => d

/-- A CFG successor function with no successors (single-point CFG). -/
def succEmpty : Nat → List Nat := fun _ => []

/-- A concrete `UniversalRegions` oracle with three universal regions where
`outlives` holds only reflexively, every region is its own non-local bound,
and region 0 is the function body. -/
def ursThree : UniversalRegions :=
  { len := 3
    fr_fn_body := 0
    outlives := fun a b => a == b
    postdom_upper_bound := fun a b => max a b
    non_local_upper_bound := fun a => a
    non_local_lower_bound := fun a => some a
    is_local_free_region := fun _ => false
    is_universal_region := fun _ => true
    num_global_and_external_regions := 3
    named_universal_regions := [] }

/-- A concrete oracle with a single universal region. -/
def ursOne : UniversalRegions :=
  { len := 1
    fr_fn_body := 0
    outlives := fun a b => a == b
    postdom_upper_bound := fun a b => max a b
    non_local_upper_bound := fun a => a
    non_local_lower_bound := fun a => some a
    is_local_free_region := fun _ => false
    is_universal_region := fun _ => true
    num_global_and_external_regions := 1
    named_universal_regions := [] }

/-- Three universal variables over a one-point CFG, no constraints. -/
def ctxThree : RegionInferenceContext := new [0, 0, 0] ursThree 1 succEmpty

/-- `ctxThree` with two outlives constraints making region 0 grow both
`end(1)` and `end(2)`: two violating pairs for the universal check. -/
def ctxTwoViolations : RegionInferenceContext :=
  { ctxThree with constraints :=
      [{ sup := 0, sub := 1, point := 0, span := 9 },
       { sup := 0, sub := 2, point := 0, span := 8 }] }

/-- The inferred values of `ctxTwoViolations`. -/
def valsTwoViolations : RegionValues := propagate_constraints ctxTwoViolations

/-- The solved context produced by running `solve` on `ctxTwoViolations` as a
closure body. -/
def ctxTwoViolationsSolved : RegionInferenceContext :=
  okCtx (solve ctxTwoViolations true) ctxTwoViolations

/-- A solved context (non-closure run of `ctxThree`), used for the post-solve
intake checks. -/
def ctxSolvedPlain : RegionInferenceContext := okCtx (solve ctxThree false) ctxThree

/-- A concrete type test used to exercise `add_type_test` after solving. -/
def ttSample : TypeTest :=
  { generic_kind := [], lower_bound := 0, point := 0, span := 0
    test := RegionTest.Any [] }

/-- One universal and one existential variable over a one-point CFG. -/
def ctxLive : RegionInferenceContext := new [0, 0] ursOne 1 succEmpty

/-- A second, identically populated fresh construction of `ctxLive`. -/
def ctxLiveCopy : RegionInferenceContext := new [0, 0] ursOne 1 succEmpty

/-- `ctxLive` after `add_live_point 1 0`. -/
def ctxLiveAdded : RegionInferenceContext :=
  match add_live_point ctxLive 1 0 with
  | Except.ok x => x.1
  | Except.error _ => ctxLive

/-- The inferred values of `ctxLiveAdded`. -/
def valsLiveAdded : RegionValues := propagate_constraints ctxLiveAdded

/-- The solved context of a non-closure run on `ctxLiveAdded`. -/
def ctxLiveSolved : RegionInferenceContext := okCtx (solve ctxLiveAdded false) ctxLiveAdded

/-- The inferred values of `ctxThree`. -/
def valsThree : RegionValues := propagate_constraints ctxThree

/-- The solved context of a closure run on `ctxThree`. -/
def ctxThreeSolved : RegionInferenceContext := okCtx (solve ctxThree true) ctxThree

/-- A two-variable context whose two constraints tie on dependency distance
but differ between the span order and the constraint natural order:
constraint (0, 1, 5, 9) precedes (0, 1, 7, 3) naturally, yet has the larger
span. -/
def ctxBlame : RegionInferenceContext :=
  { definitions :=
      [{ origin := 0, is_universal := false, external_name := none },
       { origin := 0, is_universal := false, external_name := none }]
    elements := { numPoints := 1, numUniversal := 0, succ := succEmpty }
    liveness_constraints := ∅
    inferred_values := none
    constraints :=
      [{ sup := 0, sub := 1, point := 5, span := 9 },
       { sup := 0, sub := 1, point := 7, span := 3 }]
    type_tests := []
    universal_regions := ursOne }

/-! ## General lemmas on inflationary iteration -/

/-- An invariant preserved by a function is preserved by its iterates. -/
theorem iterate_pres {α : Type} (f : α → α) (P : α → Prop)
    (hf : ∀ a, P a → P (f a)) : ∀ (n : Nat) (a), P a → P (f^[n] a) := by
  intro n
  induction n with
  | zero => intro a ha; simpa using ha
  | succ n ih =>
    intro a ha
    rw [Function.iterate_succ_apply]
    exact ih (f a) (hf a ha)

/-- Iterating an inflationary map on finite sets only grows the set. -/
theorem subset_iterate_of_infl {α : Type} [DecidableEq α] (f : Finset α → Finset α)
    (hf : ∀ s, s ⊆ f s) : ∀ (n : Nat) (s : Finset α), s ⊆ f^[n] s := by
  intro n
  induction n with
  | zero => intro s; simp
  | succ n ih =>
    intro s
    rw [Function.iterate_succ_apply]
    exact subset_trans (hf s) (ih (f s))

/-- Cardinality fixpoint lemma: an inflationary map on subsets of a finite
universe `U` reaches a fixpoint after enough iterations — each non-fixed step
strictly enlarges the set, which cannot exceed `U.card` elements. This is the
justification for running the `while changed` loops of the source a bounded
number of times. -/
theorem iterate_fix_of_card {α : Type} [DecidableEq α] (f : Finset α → Finset α)
    (U : Finset α) (hincl : ∀ s, s ⊆ f s) (hU : ∀ s, s ⊆ U → f s ⊆ U) :
    ∀ (n : Nat) (s0 : Finset α), s0 ⊆ U → U.card ≤ s0.card + n →
      f (f^[n] s0) = f^[n] s0 := by
  intro n
  induction n with
  | zero =>
    intro s0 hsub hcard
    simp only [Function.iterate_zero_apply]
    have hse : s0 = U := Finset.eq_of_subset_of_card_le hsub (by omega)
    subst hse
    exact subset_antisymm (hU s0 (subset_refl s0)) (hincl s0)
  | succ n ih =>
    intro s0 hsub hcard
    by_cases hfix : f s0 = s0
    · have h2 : f^[n + 1] s0 = s0 := Function.iterate_fixed hfix (n + 1)
      rw [h2, hfix]
    · have hss : s0 ⊂ f s0 := Finset.ssubset_iff_subset_ne.mpr ⟨hincl s0, fun h => hfix h.symm⟩
      have hlt : s0.card < (f s0).card := Finset.card_lt_card hss
      have hcard2 : U.card ≤ (f s0).card + n := by
        have := hU s0 hsub
        omega
      rw [Function.iterate_succ_apply]
      exact ih (f s0) (hU s0 hsub) hcard2

/-- A left fold of inflationary steps is inflationary. -/
theorem subset_foldl_of_infl {β : Type} (g : Finset (Nat × Nat) → β → Finset (Nat × Nat))
    (hg : ∀ a b, a ⊆ g a b) : ∀ (l : List β) (a), a ⊆ l.foldl g a := by
  intro l
  induction l with
  | nil => intro a; simp
  | cons x xs ih =>
    intro a
    rw [List.foldl_cons]
    exact subset_trans (hg a x) (ih (g a x))

/-- If a left fold of inflationary steps returns its starting set unchanged,
every individual step leaves that set unchanged. -/
theorem foldl_fix_each {β : Type} (g : Finset (Nat × Nat) → β → Finset (Nat × Nat))
    (hg : ∀ a b, a ⊆ g a b) :
    ∀ (l : List β) (a), l.foldl g a = a → ∀ b ∈ l, g a b = a := by
  intro l
  induction l with
  | nil => intro a _ b hb; simp at hb
  | cons x xs ih =>
    intro a h b hb
    rw [List.foldl_cons] at h
    have h1 : g a x ⊆ a := by
      calc g a x ⊆ xs.foldl g (g a x) := subset_foldl_of_infl g hg xs (g a x)
        _ = a := h
    have hgx : g a x = a := subset_antisymm h1 (hg a x)
    rw [hgx] at h
    rcases List.mem_cons.mp hb with rfl | hb2
    · exact hgx
    · exact ih a h b hb2

/-! ## Lemmas about the guided DFS and propagation -/

/-- The DFS frontier expansion keeps the frontier inside the source value
points. -/
theorem reachStep_subset (E : RegionValueElements) (sub cur : Finset Nat)
    (h : cur ⊆ sub) : reachStep E sub cur ⊆ sub := by
  unfold reachStep
  apply Finset.union_subset h
  intro x hx
  rcases Finset.mem_biUnion.mp hx with ⟨q, _, hxq⟩
  have h2 := List.mem_filter.mp (List.mem_toFinset.mp hxq)
  simpa using h2.2

/-- Every point the guided DFS reaches lies in the source value. -/
theorem reachablePoints_subset (E : RegionValueElements) (vals : RegionValues)
    (r : RegionVid) (start : Nat) :
    reachablePoints E vals r start ⊆ subPoints E vals r := by
  unfold reachablePoints
  apply iterate_pres (reachStep E (subPoints E vals r)) (fun s => s ⊆ subPoints E vals r)
    (fun a ha => reachStep_subset E _ a ha) E.numPoints
  split
  · next h => exact Finset.singleton_subset_iff.mpr h
  · exact Finset.empty_subset _

/-- Every element the DFS would copy out of region `r` is already an element
of the value of `r`. -/
theorem mem_of_mem_dfsCopySet (E : RegionValueElements) (vals : RegionValues)
    (r : RegionVid) (start e : Nat) (he : e ∈ dfsCopySet E vals r start) :
    (r, e) ∈ vals := by
  unfold dfsCopySet at he
  rcases Finset.mem_union.mp he with hp | hend
  · have h1 := reachablePoints_subset E vals r start hp
    exact (Finset.mem_filter.mp h1).2
  · by_cases hne : (reachablePoints E vals r start).Nonempty
    · rw [if_pos hne] at hend
      rcases Finset.mem_image.mp hend with ⟨R, hR, rfl⟩
      exact (Finset.mem_filter.mp hR).2
    · rw [if_neg hne] at hend
      simp at hend

/-- A value state inside the propagation universe stays inside it after one
constraint is applied. -/
theorem applyConstraint_subset_univ (ctx : RegionInferenceContext) (c : Constraint)
    (hc : c.sup ∈ (ctx.constraints.map Constraint.sup).toFinset)
    (s : RegionValues) (hs : s ⊆ propUniverse ctx) :
    applyConstraint ctx.elements s c ⊆ propUniverse ctx := by
  unfold applyConstraint
  apply Finset.union_subset hs
  intro x hx
  rcases Finset.mem_image.mp hx with ⟨e, he, rfl⟩
  have hsube : (c.sub, e) ∈ s := mem_of_mem_dfsCopySet _ _ _ _ _ he
  have hU := hs hsube
  unfold propUniverse at hU ⊢
  rcases Finset.mem_product.mp hU with ⟨_, h2⟩
  exact Finset.mem_product.mpr ⟨Finset.mem_union_right _ hc, by simpa using h2⟩

/-- A fold of constraint applications stays inside the propagation universe. -/
theorem foldl_apply_subset_univ (ctx : RegionInferenceContext) :
    ∀ (l : List Constraint),
      (∀ c ∈ l, c.sup ∈ (ctx.constraints.map Constraint.sup).toFinset) →
      ∀ s, s ⊆ propUniverse ctx →
        l.foldl (applyConstraint ctx.elements) s ⊆ propUniverse ctx := by
  intro l
  induction l with
  | nil => intro _ s hs; simpa using hs
  | cons x xs ih =>
    intro hl s hs
    rw [List.foldl_cons]
    exact ih (fun c hc => hl c (List.mem_cons_of_mem x hc)) _
      (applyConstraint_subset_univ ctx x (hl x (List.mem_cons_self x xs)) s hs)

/-- One propagation round stays inside the propagation universe. -/
theorem propagateOnce_subset_univ (ctx : RegionInferenceContext) (s : RegionValues)
    (hs : s ⊆ propUniverse ctx) : propagateOnce ctx s ⊆ propUniverse ctx :=
  foldl_apply_subset_univ ctx ctx.constraints
    (fun c hc => List.mem_toFinset.mpr (List.mem_map_of_mem Constraint.sup hc)) s hs

/-- One propagation round only grows the values. -/
theorem subset_propagateOnce (ctx : RegionInferenceContext) (v : RegionValues) :
    v ⊆ propagateOnce ctx v :=
  subset_foldl_of_infl (applyConstraint ctx.elements)
    (fun a b => Finset.subset_union_left) ctx.constraints v

/-- The liveness constraints live inside the propagation universe. -/
theorem liveness_subset_univ (ctx : RegionInferenceContext) :
    ctx.liveness_constraints ⊆ propUniverse ctx := by
  intro x hx
  unfold propUniverse
  exact Finset.mem_product.mpr
    ⟨Finset.mem_union_left _ (Finset.mem_image_of_mem _ hx), Finset.mem_image_of_mem _ hx⟩

/-- The result of `propagate_constraints` is a fixpoint of the propagation
round: the bounded iteration has reached the state in which the source
`while changed` loop stops. -/
theorem propagate_constraints_fixed (ctx : RegionInferenceContext) :
    propagateOnce ctx (propagate_constraints ctx) = propagate_constraints ctx :=
  iterate_fix_of_card (propagateOnce ctx) (propUniverse ctx)
    (fun s => subset_propagateOnce ctx s) (fun s hs => propagateOnce_subset_univ ctx s hs)
    (propUniverse ctx).card ctx.liveness_constraints (liveness_subset_univ ctx)
    (Nat.le_add_left _ _)

/-- Propagation only grows the liveness values. -/
theorem liveness_subset_propagate (ctx : RegionInferenceContext) :
    ctx.liveness_constraints ⊆ propagate_constraints ctx :=
  subset_iterate_of_infl (propagateOnce ctx) (fun s => subset_propagateOnce ctx s)
    (propUniverse ctx).card ctx.liveness_constraints

/-! ## Structure of a successful `solve` -/

/-- A successful `solve` implies the context was unsolved, and the returned
context is the input with the propagation fixpoint stored as its inferred
values. -/
theorem solve_ok_structure (ctx : RegionInferenceContext) (b : Bool)
    (rq : Option ClosureRegionRequirements) (ds : List Diagnostic)
    (ctx2 : RegionInferenceContext) (h : solve ctx b = Except.ok (rq, ds, ctx2)) :
    ctx.inferred_values = none ∧
      ctx2 = { ctx with inferred_values := some (propagate_constraints ctx) } := by
  unfold solve at h
  split at h
  · simp at h
  · next hiv =>
    refine ⟨hiv, ?_⟩
    unfold solveInner at h
    split at h
    · simp at h
    · simp only [Except.ok.injEq, Prod.mk.injEq] at h
      exact h.2.2.symm

/-! ## C2 support: no requirements are accumulated without a sink -/

/-- Without a sink, the type-test pass never accumulates requirements. -/
theorem check_type_tests_foldl_fst (ctx : RegionInferenceContext) (vals : RegionValues) :
    ∀ (l : List TypeTest) (acc : List ClosureOutlivesRequirement × List Diagnostic),
      (l.foldl (checkTypeTestsStep ctx vals false) acc).1 = acc.1 := by
  intro l
  induction l with
  | nil => intro acc; rfl
  | cons x xs ih =>
    intro acc
    rw [List.foldl_cons, ih]
    unfold checkTypeTestsStep
    split
    · rfl
    · simp

/-- Without a sink, the per-region universal check never accumulates
requirements. -/
theorem check_universal_region_loop_false_fst (ctx : RegionInferenceContext)
    (vals : RegionValues) (longer : RegionVid) :
    ∀ (l : List RegionVid) (acc res),
      check_universal_region_loop ctx vals longer false l acc = Except.ok res →
        res.1 = acc.1 := by
  intro l
  induction l with
  | nil =>
    intro acc res h
    unfold check_universal_region_loop at h
    simp only [Except.ok.injEq] at h
    rw [← h]
  | cons x xs ih =>
    intro acc res h
    unfold check_universal_region_loop at h
    split at h
    · exact ih _ _ h
    · split at h
      · simp at h
      · simp only [Bool.false_eq_true, if_false] at h
        have h2 := ih _ res h
        exact h2

/-- Without a sink, the universal check over any list of regions never
accumulates requirements. -/
theorem check_universal_regions_loop_false_fst (ctx : RegionInferenceContext)
    (vals : RegionValues) :
    ∀ (l : List RegionVid) (acc res),
      check_universal_regions_loop ctx vals false l acc = Except.ok res →
        res.1 = acc.1 := by
  intro l
  induction l with
  | nil =>
    intro acc res h
    unfold check_universal_regions_loop at h
    simp only [Except.ok.injEq] at h
    rw [← h]
  | cons x xs ih =>
    intro acc res h
    unfold check_universal_regions_loop at h
    cases hcur : check_universal_region ctx vals x false acc with
    | error e => rw [hcur] at h; simp at h
    | ok acc2 =>
      rw [hcur] at h
      have h1 : acc2.1 = acc.1 :=
        check_universal_region_loop_false_fst ctx vals x _ acc acc2 hcur
      rw [ih acc2 res h, h1]

/-! ## Initialization lemmas -/

/-- Each initialization step only grows the liveness values. -/
theorem initStep_snd_mono (E : RegionValueElements)
    (st : List RegionDefinition × RegionValues) (v : RegionVid) :
    st.2 ⊆ (initStep E st v).2 :=
  subset_trans Finset.subset_union_left Finset.subset_union_left

/-- The initialization fold only grows the liveness values. -/
theorem foldl_initStep_snd_mono (E : RegionValueElements) :
    ∀ (l : List RegionVid) (st), st.2 ⊆ (l.foldl (initStep E) st).2 := by
  intro l
  induction l with
  | nil => intro st; simp
  | cons x xs ih =>
    intro st
    rw [List.foldl_cons]
    exact subset_trans (initStep_snd_mono E st x) (ih (initStep E st x))

/-- After the initialization fold has processed `v`, the liveness value of
`v` holds every CFG point and its own endpoint. -/
theorem mem_foldl_initStep (E : RegionValueElements) (v : RegionVid) (e : RegionVid × Nat)
    (he : e ∈ (Finset.range E.numPoints).image (fun p => (v, p)) ∪
      {(v, E.indexOfUniversal v)}) :
    ∀ (l : List RegionVid) (st), v ∈ l → e ∈ (l.foldl (initStep E) st).2 := by
  intro l
  induction l with
  | nil => intro st hv; simp at hv
  | cons x xs ih =>
    intro st hv
    rw [List.foldl_cons]
    rcases List.mem_cons.mp hv with rfl | hv2
    · have hmem : e ∈ (initStep E st v).2 := by
        rcases Finset.mem_union.mp he with hA | hB
        · exact Finset.mem_union_left _ (Finset.mem_union_right _ hA)
        · exact Finset.mem_union_right _ hB
      exact foldl_initStep_snd_mono E xs (initStep E st v) hmem
    · exact ih (initStep E st x) hv2

/-- A freshly constructed context seeds every universal region with every CFG
point and its own endpoint. -/
theorem new_liveness_mem (origins : List Nat) (URs : UniversalRegions)
    (numPoints : Nat) (succ : Nat → List Nat) (v : RegionVid) (hv : v < URs.len) :
    (∀ p < numPoints, (v, p) ∈ (new origins URs numPoints succ).liveness_constraints) ∧
      (v, numPoints + v) ∈ (new origins URs numPoints succ).liveness_constraints := by
  unfold new init_universal_regions
  constructor
  · intro p hp
    apply mem_foldl_initStep
    · exact Finset.mem_union_left _
        (Finset.mem_image_of_mem _ (Finset.mem_range.mpr hp))
    · exact List.mem_range.mpr hv
  · apply mem_foldl_initStep
    · exact Finset.mem_union_right _ (Finset.mem_singleton_self _)
    · exact List.mem_range.mpr hv

/-! ## Claim theorems -/

/-- C1: after `solve` has completed, for every recorded outlives constraint
(sup, sub, point, span) in the constraint store, `eval_outlives(sup, sub,
point)` evaluated over the final inferred values returns true: propagation
reached a fixpoint in which every element of the value of sub reachable from
the constraint point along the CFG (universal endpoints sticking to every
visited point) is also in the value of sup. -/
theorem solve_eval_outlives_fixpoint (ctx : RegionInferenceContext) (b : Bool)
    (rq : Option ClosureRegionRequirements) (ds : List Diagnostic)
    (ctx2 : RegionInferenceContext) (h : solve ctx b = Except.ok (rq, ds, ctx2))
    (c : Constraint) (hc : c ∈ ctx.constraints) (vals : RegionValues)
    (hvals : ctx2.inferred_values = some vals) :
    evalOutlives ctx.elements vals c.sup c.sub c.point = true := by
  obtain ⟨-, hctx2⟩ := solve_ok_structure ctx b rq ds ctx2 h
  subst hctx2
  have hveq : propagate_constraints ctx = vals := by simpa using hvals
  subst hveq
  have hfix := propagate_constraints_fixed ctx
  unfold propagateOnce at hfix
  have hnoop := foldl_fix_each (applyConstraint ctx.elements)
    (fun a b => Finset.subset_union_left) ctx.constraints (propagate_constraints ctx) hfix c hc
  unfold applyConstraint at hnoop
  have himg := Finset.union_eq_left.mp hnoop
  unfold evalOutlives
  apply decide_eq_true
  intro e he
  exact himg (Finset.mem_image_of_mem _ he)

/-- C5: every liveness fact added through `add_live_point` before solving is
still present in the final inferred value of that variable after `solve`:
propagation starts from a clone of the liveness constraints and only grows
values. The context passed to `solve` may have accumulated further intake
(which never removes liveness facts), expressed by the inclusion
hypothesis. -/
theorem live_point_preserved (ctx : RegionInferenceContext) (v : RegionVid) (p : Nat)
    (ctx2 : RegionInferenceContext) (chg : Bool)
    (h1 : add_live_point ctx v p = Except.ok (ctx2, chg))
    (ctx3 : RegionInferenceContext)
    (hsub : ctx2.liveness_constraints ⊆ ctx3.liveness_constraints)
    (b : Bool) (rq : Option ClosureRegionRequirements) (ds : List Diagnostic)
    (ctx4 : RegionInferenceContext) (h : solve ctx3 b = Except.ok (rq, ds, ctx4))
    (vals : RegionValues) (hvals : ctx4.inferred_values = some vals) :
    (v, p) ∈ vals := by
  have hmem2 : (v, p) ∈ ctx2.liveness_constraints := by
    unfold add_live_point at h1
    split at h1
    · simp at h1
    · simp only [RegionValues.add, Except.ok.injEq, Prod.mk.injEq] at h1
      rw [← h1.1]
      exact Finset.mem_insert_self _ _
  obtain ⟨-, hctx4⟩ := solve_ok_structure ctx3 b rq ds ctx4 h
  subst hctx4
  have hveq : propagate_constraints ctx3 = vals := by simpa using hvals
  subst hveq
  exact liveness_subset_propagate ctx3 (hsub hmem2)

/-- C6: for every universal region index below the universal count of the
catalogue used at construction, after `solve` on any run of a context grown
from the fresh construction — intake operations only add liveness facts,
constraints and type tests, expressed by the liveness inclusion hypothesis —
the final inferred value of the region contains every CFG point and its own
endpoint: initialization seeds exactly these elements and propagation is
monotone. -/
theorem universal_contains_cfg_and_end (origins : List Nat) (URs : UniversalRegions)
    (numPoints : Nat) (succ : Nat → List Nat) (ctx3 : RegionInferenceContext)
    (hgrow : (new origins URs numPoints succ).liveness_constraints ⊆
      ctx3.liveness_constraints)
    (v : RegionVid) (p : Nat) (b : Bool)
    (rq : Option ClosureRegionRequirements) (ds : List Diagnostic)
    (ctx2 : RegionInferenceContext) (vals : RegionValues)
    (hv : v < URs.len) (hp : p < numPoints)
    (h : solve ctx3 b = Except.ok (rq, ds, ctx2))
    (hvals : ctx2.inferred_values = some vals) :
    (v, p) ∈ vals ∧ (v, numPoints + v) ∈ vals := by
  obtain ⟨-, hctx2⟩ := solve_ok_structure ctx3 b rq ds ctx2 h
  subst hctx2
  have hveq : propagate_constraints ctx3 = vals := by
    simpa using hvals
  subst hveq
  obtain ⟨hpt, hend⟩ := new_liveness_mem origins URs numPoints succ v hv
  exact ⟨liveness_subset_propagate _ (hgrow (hpt p hp)),
    liveness_subset_propagate _ (hgrow hend)⟩

/-- C7: for every region variable, `non_local_universal_upper_bound` equals
the fold of `postdom_upper_bound` over exactly the universal regions whose
endpoint lies in the inferred value of the variable, started from the
function-body region, with `non_local_upper_bound` applied to the result. -/
theorem non_local_universal_upper_bound_spec (ctx : RegionInferenceContext)
    (vals : RegionValues) (r : RegionVid) (h : ctx.inferred_values = some vals) :
    non_local_universal_upper_bound ctx r =
      some (ctx.universal_regions.non_local_upper_bound
        (((List.range ctx.elements.numUniversal).filter fun R =>
            decide ((r, ctx.elements.numPoints + R) ∈ vals)).foldl
          ctx.universal_regions.postdom_upper_bound ctx.universal_regions.fr_fn_body)) := by
  unfold non_local_universal_upper_bound
  rw [h]
  rfl

/-- C9: `solve` is deterministic — on two contexts populated with identical
definitions, elements, liveness facts, solved state, constraints, type tests
and universal-region oracles, it produces identical results (inferred values,
diagnostics, and requirement list, in identical order). -/
theorem solve_deterministic (ctxa ctxb : RegionInferenceContext) (b : Bool)
    (h1 : ctxa.definitions = ctxb.definitions)
    (h2 : ctxa.elements = ctxb.elements)
    (h3 : ctxa.liveness_constraints = ctxb.liveness_constraints)
    (h4 : ctxa.inferred_values = ctxb.inferred_values)
    (h5 : ctxa.constraints = ctxb.constraints)
    (h6 : ctxa.type_tests = ctxb.type_tests)
    (h7 : ctxa.universal_regions = ctxb.universal_regions) :
    solve ctxa b = solve ctxb b := by
  have heq : ctxa = ctxb := by
    obtain ⟨d1, e1, l1, i1, c1, t1, u1⟩ := ctxa
    obtain ⟨d2, e2, l2, i2, c2, t2, u2⟩ := ctxb
    simp_all
  rw [heq]

/-- C10: evaluating a `RegionTest` with an empty operand list is vacuous in
the direction of its connective — true for `IsOutlivedByAllRegionsIn []` and
`All []`, false for `IsOutlivedByAnyRegionIn []` and `Any []` — for every
element table, value assignment, point and lower bound. -/
theorem eval_region_test_empty_vacuous (E : RegionValueElements) (vals : RegionValues)
    (point : Nat) (lb : RegionVid) :
    evalRegionTest E vals point lb (RegionTest.IsOutlivedByAllRegionsIn []) = true ∧
      evalRegionTest E vals point lb (RegionTest.All []) = true ∧
      evalRegionTest E vals point lb (RegionTest.IsOutlivedByAnyRegionIn []) = false ∧
      evalRegionTest E vals point lb (RegionTest.Any []) = false := by
  refine ⟨?_, ?_, ?_, ?_⟩ <;> simp [evalRegionTest]

/-- One type-test step never loses a previously emitted diagnostic. -/
theorem checkTypeTestsStep_snd_mem (ctx : RegionInferenceContext) (vals : RegionValues)
    (sink : Bool) (acc : List ClosureOutlivesRequirement × List Diagnostic)
    (tt : TypeTest) (x : Diagnostic) (hx : x ∈ acc.2) :
    x ∈ (checkTypeTestsStep ctx vals sink acc tt).2 := by
  unfold checkTypeTestsStep
  split
  · exact hx
  · split
    · split
      · exact hx
      · exact List.mem_append_left _ hx
    · exact List.mem_append_left _ hx

/-- The type-test pass never loses a previously emitted diagnostic. -/
theorem check_type_tests_foldl_snd_mem (ctx : RegionInferenceContext) (vals : RegionValues)
    (sink : Bool) :
    ∀ (l : List TypeTest) (acc) (x : Diagnostic), x ∈ acc.2 →
      x ∈ (l.foldl (checkTypeTestsStep ctx vals sink) acc).2 := by
  intro l
  induction l with
  | nil => intro acc x hx; exact hx
  | cons t ts ih =>
    intro acc x hx
    rw [List.foldl_cons]
    exact ih _ x (checkTypeTestsStep_snd_mem ctx vals sink acc t x hx)

/-- Without a sink, every failing type test contributes its diagnostic. -/
theorem check_type_tests_err_mem (ctx : RegionInferenceContext) (vals : RegionValues) :
    ∀ (l : List TypeTest) (acc) (tt : TypeTest), tt ∈ l →
      evalRegionTest ctx.elements vals tt.point tt.lower_bound tt.test = false →
      Diagnostic.typeTestError tt.span tt.lower_bound ∈
        (l.foldl (checkTypeTestsStep ctx vals false) acc).2 := by
  intro l
  induction l with
  | nil => intro acc tt htt; simp at htt
  | cons t ts ih =>
    intro acc tt htt heval
    rw [List.foldl_cons]
    rcases List.mem_cons.mp htt with rfl | h2
    · apply check_type_tests_foldl_snd_mem
      unfold checkTypeTestsStep
      rw [heval]
      simp
    · exact ih _ tt h2 heval

/-- The per-region universal check never loses a previously emitted
diagnostic (for any sink). -/
theorem check_universal_region_loop_snd_mem (ctx : RegionInferenceContext)
    (vals : RegionValues) (longer : RegionVid) (sink : Bool) :
    ∀ (l : List RegionVid) (acc res),
      check_universal_region_loop ctx vals longer sink l acc = Except.ok res →
      ∀ x ∈ acc.2, x ∈ res.2 := by
  intro l
  induction l with
  | nil =>
    intro acc res h x hx
    unfold check_universal_region_loop at h
    simp only [Except.ok.injEq] at h
    rw [← h]
    exact hx
  | cons s rest ih =>
    intro acc res h x hx
    unfold check_universal_region_loop at h
    split at h
    · exact ih _ _ h x hx
    · split at h
      · simp at h
      · split at h
        · split at h
          · simp only [Except.ok.injEq] at h
            rw [← h]
            exact hx
          · exact ih _ _ h x (List.mem_append_left _ hx)
        · exact ih _ _ h x (List.mem_append_left _ hx)

/-- The outer universal check never loses a previously emitted diagnostic
(for any sink). -/
theorem check_universal_regions_loop_snd_mem (ctx : RegionInferenceContext)
    (vals : RegionValues) (sink : Bool) :
    ∀ (l : List RegionVid) (acc res),
      check_universal_regions_loop ctx vals sink l acc = Except.ok res →
      ∀ x ∈ acc.2, x ∈ res.2 := by
  intro l
  induction l with
  | nil =>
    intro acc res h x hx
    unfold check_universal_regions_loop at h
    simp only [Except.ok.injEq] at h
    rw [← h]
    exact hx
  | cons fr rest ih =>
    intro acc res h x hx
    unfold check_universal_regions_loop at h
    split at h
    · simp at h
    · next acc2 hcur =>
      have hx2 : x ∈ acc2.2 := by
        unfold check_universal_region at hcur
        exact check_universal_region_loop_snd_mem ctx vals fr sink _ acc acc2 hcur x hx
      exact ih acc2 res h x hx2

/-- Without a sink, every violating pair found by the per-region universal
check contributes a diagnostic (a successful run implies the blame lookups
succeeded). -/
theorem check_universal_region_loop_err_mem (ctx : RegionInferenceContext)
    (vals : RegionValues) (longer : RegionVid) :
    ∀ (l : List RegionVid) (acc res) (shorter : RegionVid), shorter ∈ l →
      ctx.universal_regions.outlives longer shorter = false →
      check_universal_region_loop ctx vals longer false l acc = Except.ok res →
      ∃ bs, Diagnostic.universalError bs longer shorter ∈ res.2 := by
  intro l
  induction l with
  | nil => intro acc res shorter hsh; simp at hsh
  | cons s rest ih =>
    intro acc res shorter hsh hviol h
    unfold check_universal_region_loop at h
    rcases List.mem_cons.mp hsh with rfl | h2
    · rw [hviol] at h
      simp only [Bool.false_eq_true, if_false] at h
      split at h
      · simp at h
      · next bs hbs =>
        refine ⟨bs, ?_⟩
        apply check_universal_region_loop_snd_mem ctx vals longer false rest _ res h
        exact List.mem_append_right _ (List.mem_singleton_self _)
    · split at h
      · exact ih _ _ shorter h2 hviol h
      · split at h
        · simp at h
        · next bs hbs =>
          simp only [Bool.false_eq_true, if_false] at h
          exact ih _ _ shorter h2 hviol h

/-- Without a sink, every violating pair of every checked universal region
contributes a diagnostic to the final list. -/
theorem check_universal_regions_loop_err_mem (ctx : RegionInferenceContext)
    (vals : RegionValues) :
    ∀ (l : List RegionVid) (acc res) (fr : RegionVid), fr ∈ l →
      ∀ (shorter : RegionVid),
        shorter ∈ RegionValues.universal_regions_outlived_by ctx.elements vals fr →
        ctx.universal_regions.outlives fr shorter = false →
        check_universal_regions_loop ctx vals false l acc = Except.ok res →
        ∃ bs, Diagnostic.universalError bs fr shorter ∈ res.2 := by
  intro l
  induction l with
  | nil => intro acc res fr hfr; simp at hfr
  | cons x rest ih =>
    intro acc res fr hfr shorter hsh hviol h
    unfold check_universal_regions_loop at h
    split at h
    · simp at h
    · next acc2 hcur =>
      rcases List.mem_cons.mp hfr with rfl | h2
      · unfold check_universal_region at hcur
        obtain ⟨bs, hbs⟩ :=
          check_universal_region_loop_err_mem ctx vals fr _ acc acc2 shorter hsh hviol hcur
        exact ⟨bs, check_universal_regions_loop_snd_mem ctx vals false rest acc2 res h _ hbs⟩
      · exact ih acc2 res fr h2 shorter hsh hviol h

/-- C2: `solve` returns `Some` if and only if the body is a closure and the
checking passes accumulated at least one requirement; a returned `Some`
carries exactly that nonempty list; and for a non-closure body the result is
`None` while every violation — each failing type test and each violating
universal pair — is reported as a diagnostic. -/
theorem solve_some_iff (ctx : RegionInferenceContext) (b : Bool)
    (rq : Option ClosureRegionRequirements) (ds : List Diagnostic)
    (ctx2 : RegionInferenceContext) (h : solve ctx b = Except.ok (rq, ds, ctx2)) :
    ∃ reqs : List ClosureOutlivesRequirement,
      solveChecks ctx b (propagate_constraints ctx) = Except.ok (reqs, ds) ∧
      (rq.isSome = true ↔ b = true ∧ reqs ≠ []) ∧
      (∀ crr, rq = some crr → crr.outlives_requirements = reqs ∧ b = true ∧ reqs ≠ []) ∧
      (b = false →
        rq = none ∧
        (∀ tt ∈ ctx.type_tests,
          evalRegionTest ctx.elements (propagate_constraints ctx) tt.point tt.lower_bound
            tt.test = false →
          Diagnostic.typeTestError tt.span tt.lower_bound ∈ ds) ∧
        (∀ fr ∈ (ctx.definitions.enum.takeWhile fun x => x.2.is_universal).map fun x => x.1,
          ∀ shorter ∈ RegionValues.universal_regions_outlived_by ctx.elements
              (propagate_constraints ctx) fr,
            ctx.universal_regions.outlives fr shorter = false →
            ∃ bs, Diagnostic.universalError bs fr shorter ∈ ds)) := by
  unfold solve at h
  split at h
  · simp at h
  · unfold solveInner at h
    split at h
    · simp at h
    · next reqs diags hcur =>
      simp only [Except.ok.injEq, Prod.mk.injEq] at h
      obtain ⟨hrq, hds, -⟩ := h
      subst hds
      have hfalse_reqs : b = false → reqs = [] := by
        intro hb
        subst hb
        unfold solveChecks check_universal_regions at hcur
        have hfst := check_universal_regions_loop_false_fst _ _ _ _ _ hcur
        exact hfst.trans (check_type_tests_foldl_fst _ _ _ _)
      refine ⟨reqs, hcur, ?_, ?_, ?_⟩
      · constructor
        · intro hsome
          by_cases hemp : reqs.isEmpty
          · rw [if_pos hemp] at hrq
            rw [← hrq] at hsome
            simp at hsome
          · have hb : b = true := by
              cases hb2 : b
              · exfalso
                have hnil : reqs = [] := hfalse_reqs hb2
                rw [hnil] at hemp
                simp at hemp
              · rfl
            refine ⟨hb, ?_⟩
            intro hnil
            rw [hnil] at hemp
            simp at hemp
        · rintro ⟨hb, hne⟩
          subst hb
          have hemp : reqs.isEmpty = false := by
            cases hre : reqs
            · exact absurd hre hne
            · rfl
          rw [if_neg (by simp [hemp])] at hrq
          rw [← hrq]
          rfl
      · intro crr hcrr
        by_cases hemp : reqs.isEmpty
        · rw [if_pos hemp] at hrq
          rw [← hrq] at hcrr
          simp at hcrr
        · rw [if_neg hemp] at hrq
          rw [← hrq] at hcrr
          simp only [Option.some.injEq] at hcrr
          have hor : crr.outlives_requirements = reqs := by rw [← hcrr]
          have hne : reqs ≠ [] := by
            intro hnil
            rw [hnil] at hemp
            simp at hemp
          refine ⟨hor, ?_, hne⟩
          cases hb2 : b
          · exfalso
            exact hne (hfalse_reqs hb2)
          · rfl
      · intro hb
        subst hb
        have hreqs : reqs = [] := hfalse_reqs rfl
        refine ⟨?_, ?_, ?_⟩
        · rw [hreqs] at hrq
          simpa using hrq.symm
        · intro tt htt heval
          unfold solveChecks check_universal_regions at hcur
          apply check_universal_regions_loop_snd_mem _ _ _ _ _ _ hcur
          unfold check_type_tests
          exact check_type_tests_err_mem _ _ _ _ tt htt heval
        · intro fr hfr shorter hsh hviol
          unfold solveChecks check_universal_regions at hcur
          exact check_universal_regions_loop_err_mem
            { ctx with inferred_values := some (propagate_constraints ctx) }
            (propagate_constraints ctx) _ _ _ fr hfr shorter hsh hviol hcur

/-! ## Minimum-selection lemmas for the blame heuristic -/

/-- `minByLe` returns `none` only on the empty list. -/
theorem minByLe_eq_none {α : Type} (le : α → α → Bool) :
    ∀ (l : List α), minByLe le l = none → l = [] := by
  intro l h
  cases l with
  | nil => rfl
  | cons a as =>
    unfold minByLe at h
    split at h
    · simp at h
    · split at h <;> simp at h

/-- An element returned by `minByLe` belongs to the list. -/
theorem minByLe_mem {α : Type} (le : α → α → Bool) :
    ∀ (l : List α) (m), minByLe le l = some m → m ∈ l := by
  intro l
  induction l with
  | nil => intro m h; simp [minByLe] at h
  | cons x xs ih =>
    intro m h
    unfold minByLe at h
    split at h
    · simp only [Option.some.injEq] at h
      subst h
      exact List.mem_cons_self x xs
    · next y hrec =>
      split at h
      · simp only [Option.some.injEq] at h
        subst h
        exact List.mem_cons_self x xs
      · simp only [Option.some.injEq] at h
        subst h
        exact List.mem_cons_of_mem x (ih y hrec)

/-- For a total transitive boolean order, `minByLe` returns a minimum. -/
theorem minByLe_min {α : Type} (le : α → α → Bool)
    (htot : ∀ a b, le a b = true ∨ le b a = true)
    (htrans : ∀ a b c, le a b = true → le b c = true → le a c = true) :
    ∀ (l : List α) (m), minByLe le l = some m → ∀ z ∈ l, le m z = true := by
  intro l
  induction l with
  | nil => intro m h; simp [minByLe] at h
  | cons x xs ih =>
    intro m h z hz
    unfold minByLe at h
    split at h
    · next hrec =>
      simp only [Option.some.injEq] at h
      subst h
      have hxs : xs = [] := minByLe_eq_none le xs hrec
      subst hxs
      have hz2 : z = x := by simpa using hz
      subst hz2
      rcases htot z z with hh | hh <;> exact hh
    · next y hrec =>
      have hymin := ih y hrec
      split at h
      · next hxy =>
        simp only [Option.some.injEq] at h
        subst h
        rcases List.mem_cons.mp hz with rfl | hz2
        · rcases htot z z with hh | hh <;> exact hh
        · exact htrans x y z hxy (hymin z hz2)
      · next hxy =>
        simp only [Option.some.injEq] at h
        subst h
        rcases List.mem_cons.mp hz with rfl | hz2
        · rcases htot z y with hh | hh
          · exact absurd hh hxy
          · exact hh
        · exact hymin z hz2

/-- The (distance, span) order is total. -/
theorem pairLe_total (a b : Nat × Nat) : pairLe a b = true ∨ pairLe b a = true := by
  unfold pairLe
  simp only [Bool.or_eq_true, Bool.and_eq_true, decide_eq_true_eq]
  omega

/-- The (distance, span) order is transitive. -/
theorem pairLe_trans (a b c : Nat × Nat) (h1 : pairLe a b = true)
    (h2 : pairLe b c = true) : pairLe a c = true := by
  unfold pairLe at h1 h2 ⊢
  simp only [Bool.or_eq_true, Bool.and_eq_true, decide_eq_true_eq] at h1 h2 ⊢
  omega

/-! ## Remaining claim theorems -/

/-- C3 (amended): during the universal check with a sink, the first violating
pair (in endpoint enumeration order) for a given longer region — provided
blame selection succeeds and a non-local lower bound exists — produces the
single requirement {Region(lower bound of longer), upper bound of shorter,
blame span}, and the check for that longer region stops there (early
return). -/
theorem check_universal_region_loop_first_violation (ctx : RegionInferenceContext)
    (vals : RegionValues) (longer : RegionVid) (s : RegionVid) (rest : List RegionVid)
    (hs : ctx.universal_regions.outlives longer s = false) (bs : Span)
    (hbs : blame_span ctx longer s = some bs) (m : RegionVid)
    (hm : ctx.universal_regions.non_local_lower_bound longer = some m) :
    ∀ (pre : List RegionVid),
      (∀ x ∈ pre, ctx.universal_regions.outlives longer x = true) →
      ∀ acc, check_universal_region_loop ctx vals longer true (pre ++ s :: rest) acc =
        Except.ok (acc.1 ++ [{ subject := ClosureOutlivesSubject.Region m
                               outlived_free_region :=
                                 ctx.universal_regions.non_local_upper_bound s
                               blame_span := bs }], acc.2) := by
  intro pre
  induction pre with
  | nil =>
    intro _ acc
    simp only [List.nil_append]
    unfold check_universal_region_loop
    rw [hs, hbs, hm]
    simp
  | cons x xs ih =>
    intro hpre acc
    simp only [List.cons_append]
    unfold check_universal_region_loop
    rw [hpre x (List.mem_cons_self x xs)]
    simp only [if_true]
    exact ih (fun y hy => hpre y (List.mem_cons_of_mem x hy)) acc

/-- C3 (amended), at the level of `check_universal_region`: when the sink is
present and `s` is the first region in the endpoint enumeration of the longer
region that is not declaratively outlived, with a blame span and a non-local
lower bound available, exactly one requirement is appended and the remaining
candidates of that longer region are not examined. -/
theorem check_universal_region_first_violation (ctx : RegionInferenceContext)
    (vals : RegionValues) (longer : RegionVid)
    (acc : List ClosureOutlivesRequirement × List Diagnostic)
    (pre : List RegionVid) (s : RegionVid) (rest : List RegionVid)
    (hlist : RegionValues.universal_regions_outlived_by ctx.elements vals longer =
      pre ++ s :: rest)
    (hpre : ∀ x ∈ pre, ctx.universal_regions.outlives longer x = true)
    (hs : ctx.universal_regions.outlives longer s = false)
    (bs : Span) (hbs : blame_span ctx longer s = some bs)
    (m : RegionVid) (hm : ctx.universal_regions.non_local_lower_bound longer = some m) :
    check_universal_region ctx vals longer true acc =
      Except.ok (acc.1 ++ [{ subject := ClosureOutlivesSubject.Region m
                             outlived_free_region :=
                               ctx.universal_regions.non_local_upper_bound s
                             blame_span := bs }], acc.2) := by
  unfold check_universal_region
  rw [hlist]
  exact check_universal_region_loop_first_violation ctx vals longer s rest hs bs hbs m hm
    pre hpre acc

/-- C3 counterexample: in `ctxTwoViolations`, universal region 0 outgrows
both `end(1)` and `end(2)` with no declarative outlives facts and with a
non-local lower bound available, yet the closure run of `solve` produces
exactly one requirement (for the first violating pair) instead of one per
violating pair. -/
theorem check_universal_region_early_return_counterexample :
    okReqs (solve ctxTwoViolations true) =
      some { num_external_vids := 3
             outlives_requirements :=
               [{ subject := ClosureOutlivesSubject.Region 0
                  outlived_free_region := 1
                  blame_span := 9 }] } ∧
      okDiags (solve ctxTwoViolations true) = [] ∧
      RegionValues.universal_regions_outlived_by ctxTwoViolations.elements
        valsTwoViolations 0 = [0, 1, 2] ∧
      ursThree.outlives 0 1 = false ∧
      ursThree.outlives 0 2 = false ∧
      ursThree.non_local_lower_bound 0 = some 0 := by
  refine ⟨?_, ?_, ?_, ?_, ?_, ?_⟩ <;> decide

/-- C4 (amended): after `solve` has populated the inferred values,
`add_live_point` and `add_outlives` fail loudly, but `add_type_test` performs
no phase check and appends the test unconditionally. -/
theorem intake_after_solve (ctx : RegionInferenceContext)
    (h : ctx.inferred_values.isSome = true) (v : RegionVid) (p : Nat) (sp : Span)
    (su sb : RegionVid) (pt : Nat) (tt : TypeTest) :
    exceptIsError (add_live_point ctx v p) = true ∧
      exceptIsError (add_outlives ctx sp su sb pt) = true ∧
      add_type_test ctx tt = { ctx with type_tests := ctx.type_tests ++ [tt] } := by
  obtain ⟨vals, hiv⟩ := Option.isSome_iff_exists.mp h
  refine ⟨?_, ?_, rfl⟩
  · unfold add_live_point
    rw [hiv]
    rfl
  · unfold add_outlives
    rw [hiv]
    rfl

/-- C4 counterexample: on a concrete solved context, `add_live_point` and
`add_outlives` fail, but `add_type_test` succeeds and mutates the context —
so not every mutating intake operation fails after `solve`. -/
theorem add_type_test_no_assert_counterexample :
    ctxSolvedPlain.inferred_values.isSome = true ∧
      exceptIsError (add_live_point ctxSolvedPlain 0 0) = true ∧
      exceptIsError (add_outlives ctxSolvedPlain 7 0 0 0) = true ∧
      (add_type_test ctxSolvedPlain ttSample).type_tests =
        ctxSolvedPlain.type_tests ++ [ttSample] :=
  ⟨rfl, rfl, rfl, rfl⟩

/-- C8 (amended): a span returned by `blame_span(fr1, fr2)` is the span of a
constraint with `sub = fr2` and a reachable `sup`, minimal among all such
constraints in the lexicographic (distance, span) order — ties among equal
distances are broken by the smallest span, not by the constraint natural
ordering; `none` (the fatal error) occurs only when no candidate exists. -/
theorem blame_span_min_spec (ctx : RegionInferenceContext) (fr1 fr2 : RegionVid)
    (s : Span) (h : blame_span ctx fr1 fr2 = some s) :
    ∃ c ∈ ctx.constraints, ∃ d : Nat,
      c.sub = fr2 ∧ c.span = s ∧
        (dependencies ctx fr1).getD c.sup none = some d ∧
        ∀ c2 ∈ ctx.constraints, c2.sub = fr2 →
          ∀ d2 : Nat, (dependencies ctx fr1).getD c2.sup none = some d2 →
            pairLe (d, s) (d2, c2.span) = true := by
  unfold blame_span at h
  cases hmin : minByLe pairLe (blameCandidates ctx fr1 fr2) with
  | none => rw [hmin] at h; simp at h
  | some mp =>
    rw [hmin] at h
    simp only [Option.map_some', Option.some.injEq] at h
    have hmem := minByLe_mem pairLe _ _ hmin
    have hmin2 := minByLe_min pairLe pairLe_total pairLe_trans _ _ hmin
    unfold blameCandidates at hmem
    rcases List.mem_filterMap.mp hmem with ⟨c, hcmem, hc⟩
    by_cases hsubne : c.sub ≠ fr2
    · rw [if_pos hsubne] at hc
      simp at hc
    · rw [if_neg hsubne] at hc
      push_neg at hsubne
      rcases Option.map_eq_some'.mp hc with ⟨d, hd, hmp⟩
      subst hmp
      have hspan : c.span = s := h
      subst hspan
      refine ⟨c, hcmem, d, hsubne, rfl, hd, ?_⟩
      intro c2 hc2mem hc2sub d2 hd2
      have hcand : (d2, c2.span) ∈ blameCandidates ctx fr1 fr2 := by
        unfold blameCandidates
        apply List.mem_filterMap.mpr
        refine ⟨c2, hc2mem, ?_⟩
        rw [if_neg (not_not_intro hc2sub), hd2]
        rfl
      exact hmin2 _ hcand

/-- C8 counterexample: in `ctxBlame` the two candidate constraints tie on
dependency distance; the source returns the smaller span (3) while the
claimed tie-break by the constraint natural ordering would return the span of
the naturally smaller constraint (9). -/
theorem blame_span_tie_break_counterexample :
    blame_span ctxBlame 0 1 = some 3 ∧
      blameSpanClaimTieBreak ctxBlame 0 1 = some 9 ∧
      blame_span ctxBlame 0 1 ≠ blameSpanClaimTieBreak ctxBlame 0 1 := by
  refine ⟨?_, ?_, ?_⟩ <;> decide

/-! ## Witnesses: each hypothesis-bearing claim theorem applied at a concrete input -/

/-- Witness for C1: the fixpoint property evaluated on the concrete run of
`ctxTwoViolations`. -/
theorem solve_eval_outlives_fixpoint_witness :
    evalOutlives ctxTwoViolations.elements valsTwoViolations 0 1 0 = true :=
  solve_eval_outlives_fixpoint ctxTwoViolations true (okReqs (solve ctxTwoViolations true))
    (okDiags (solve ctxTwoViolations true)) ctxTwoViolationsSolved rfl
    { sup := 0, sub := 1, point := 0, span := 9 } (by decide) valsTwoViolations rfl

/-- Witness for C2: the full return shape of the concrete non-closure run of
`ctxTwoViolations`, where both universal violations are live in the
diagnostics clause. -/
theorem solve_some_iff_witness :
    ∃ reqs : List ClosureOutlivesRequirement,
      solveChecks ctxTwoViolations false (propagate_constraints ctxTwoViolations) =
        Except.ok (reqs, okDiags (solve ctxTwoViolations false)) ∧
      ((okReqs (solve ctxTwoViolations false)).isSome = true ↔ false = true ∧ reqs ≠ []) ∧
      (∀ crr, okReqs (solve ctxTwoViolations false) = some crr →
        crr.outlives_requirements = reqs ∧ false = true ∧ reqs ≠ []) ∧
      (false = false →
        okReqs (solve ctxTwoViolations false) = none ∧
        (∀ tt ∈ ctxTwoViolations.type_tests,
          evalRegionTest ctxTwoViolations.elements
            (propagate_constraints ctxTwoViolations) tt.point tt.lower_bound
            tt.test = false →
          Diagnostic.typeTestError tt.span tt.lower_bound ∈
            okDiags (solve ctxTwoViolations false)) ∧
        (∀ fr ∈ (ctxTwoViolations.definitions.enum.takeWhile
            fun x => x.2.is_universal).map fun x => x.1,
          ∀ shorter ∈ RegionValues.universal_regions_outlived_by ctxTwoViolations.elements
              (propagate_constraints ctxTwoViolations) fr,
            ctxTwoViolations.universal_regions.outlives fr shorter = false →
            ∃ bs, Diagnostic.universalError bs fr shorter ∈
              okDiags (solve ctxTwoViolations false))) :=
  solve_some_iff ctxTwoViolations false (okReqs (solve ctxTwoViolations false))
    (okDiags (solve ctxTwoViolations false))
    (okCtx (solve ctxTwoViolations false) ctxTwoViolations) rfl

/-- Witness for C3 (amended): on the concrete solved context, the first
violating pair of region 0 yields the single pushed requirement. -/
theorem check_universal_region_first_violation_witness :
    check_universal_region ctxTwoViolationsSolved valsTwoViolations 0 true ([], []) =
      Except.ok ([{ subject := ClosureOutlivesSubject.Region 0
                    outlived_free_region := 1
                    blame_span := 9 }], []) :=
  check_universal_region_first_violation ctxTwoViolationsSolved valsTwoViolations 0 ([], [])
    [0] 1 [2] (by decide) (by decide) (by decide) 9 (by decide) 0 (by decide)

/-- Witness for C4 (amended): the post-solve behaviour of the three intake
operations on a concrete solved context. -/
theorem intake_after_solve_witness :
    exceptIsError (add_live_point ctxSolvedPlain 1 0) = true ∧
      exceptIsError (add_outlives ctxSolvedPlain 5 0 1 0) = true ∧
      add_type_test ctxSolvedPlain ttSample =
        { ctxSolvedPlain with type_tests := ctxSolvedPlain.type_tests ++ [ttSample] } :=
  intake_after_solve ctxSolvedPlain rfl 1 0 5 0 1 0 ttSample

/-- Witness for C5: the live point (1, 0) added before solving is present in
the final inferred values. -/
theorem live_point_preserved_witness : ((1 : Nat), (0 : Nat)) ∈ valsLiveAdded :=
  live_point_preserved ctxLive 1 0 ctxLiveAdded true rfl ctxLiveAdded
    (Finset.Subset.refl _) false (okReqs (solve ctxLiveAdded false))
    (okDiags (solve ctxLiveAdded false)) ctxLiveSolved rfl valsLiveAdded rfl

/-- Witness for C6: universal region 0 contains the CFG point 0 and its own
endpoint after solving a populated run (`ctxTwoViolations` carries two
outlives constraints on top of the fresh construction). -/
theorem universal_contains_cfg_and_end_witness :
    ((0 : Nat), (0 : Nat)) ∈ valsTwoViolations ∧
      ((0 : Nat), 1 + 0) ∈ valsTwoViolations :=
  universal_contains_cfg_and_end [0, 0, 0] ursThree 1 succEmpty ctxTwoViolations
    (fun _ hx => hx) 0 0 true (okReqs (solve ctxTwoViolations true))
    (okDiags (solve ctxTwoViolations true)) ctxTwoViolationsSolved valsTwoViolations
    (by decide) (by decide) rfl rfl

/-- Witness for C7: the upper-bound fold evaluated on the concrete solved
three-region context. -/
theorem non_local_universal_upper_bound_spec_witness :
    non_local_universal_upper_bound ctxThreeSolved 0 =
      some (ctxThreeSolved.universal_regions.non_local_upper_bound
        (((List.range ctxThreeSolved.elements.numUniversal).filter fun R =>
            decide ((0, ctxThreeSolved.elements.numPoints + R) ∈ valsThree)).foldl
          ctxThreeSolved.universal_regions.postdom_upper_bound
          ctxThreeSolved.universal_regions.fr_fn_body)) :=
  non_local_universal_upper_bound_spec ctxThreeSolved valsThree 0 rfl

/-- Witness for C8 (amended): the minimality property of the selected blame
span on the concrete tie-breaking context. -/
theorem blame_span_min_spec_witness :
    ∃ c ∈ ctxBlame.constraints, ∃ d : Nat,
      c.sub = 1 ∧ c.span = 3 ∧
        (dependencies ctxBlame 0).getD c.sup none = some d ∧
        ∀ c2 ∈ ctxBlame.constraints, c2.sub = 1 →
          ∀ d2 : Nat, (dependencies ctxBlame 0).getD c2.sup none = some d2 →
            pairLe (d, 3) (d2, c2.span) = true :=
  blame_span_min_spec ctxBlame 0 1 3 (by decide)

/-- Witness for C9: two identically populated fresh contexts solve to the
same result. -/
theorem solve_deterministic_witness : solve ctxLive false = solve ctxLiveCopy false :=
  solve_deterministic ctxLive ctxLiveCopy false rfl rfl rfl rfl rfl rfl rfl

end RegionInfer
